/-
Verification of the resilience-and-caching core of the amazon-paapi-mcp
repository: the token-bucket `RateLimiter` (core/rate_limiter.py), the
`CircuitBreaker` finite state machine (core/circuit_breaker.py) and the
two-tier `CacheManager` (core/cache_manager.py).

The Python code is shallowly embedded: timestamps (`datetime.now()`) become
rational numbers measured in seconds, each stateful method becomes a pure
function from the old state (plus the current time, where the method reads
the clock) to its return value and the new state, and Python floats become
rationals.
-/
import Mathlib

namespace AmazonMcp

/-! ## RateLimiter (core/rate_limiter.py)

State of the token-bucket limiter.  `tokens` is a Python float (modelled as
`ℚ`), `daily_requests` a Python int counter, and the two timestamps are
seconds on an absolute clock.  `max_per_second` doubles as bucket capacity
and refill rate, exactly as in the source. -/

structure RateLimiter where
  max_per_second : ℚ
  max_per_day : ℕ
  tokens : ℚ
  last_refill : ℚ
  daily_requests : ℕ
  daily_reset : ℚ
  deriving Repr, DecidableEq

namespace RateLimiter

/-- Embeds `RateLimiter.__init__(max_per_second, max_per_day)` executed at clock
time `now`: a full bucket, and the daily window ending one day
(86400 seconds, `timedelta(days=1)`) later. -/
def init (max_per_second : ℚ) (max_per_day : ℕ) (now : ℚ) : RateLimiter :=
  { max_per_second := max_per_second
    max_per_day := max_per_day
    tokens := max_per_second
    last_refill := now
    daily_requests := 0
    daily_reset := now + 86400 }

/-- Embeds `RateLimiter.acquire()` executed at clock time `now`; returns the bool
result and the updated state.  Mirrors the source line by line: refill
capped at `max_per_second`, daily reset when `now >= daily_reset`, then the
daily-limit check, the token check, and finally consumption. -/
def acquire (rl : RateLimiter) (now : ℚ) : Bool × RateLimiter :=
  let time_passed := now - rl.last_refill
  let refilled : RateLimiter := { rl with
    tokens := min rl.max_per_second (rl.tokens + time_passed * rl.max_per_second)
    last_refill := now }
  let reset : RateLimiter := if refilled.daily_reset ≤ now then
      { refilled with daily_requests := 0, daily_reset := now + 86400 }
    else refilled
  if reset.max_per_day ≤ reset.daily_requests then (false, reset)
  else if reset.tokens < 1 then (false, reset)
  else (true, { reset with tokens := reset.tokens - 1,
                           daily_requests := reset.daily_requests + 1 })

end RateLimiter

/-- State after a sequence of `acquire()` calls at the given clock times. -/
def rlRun (rl : RateLimiter) (ts : List ℚ) : RateLimiter :=
  ts.foldl (fun s t => (s.acquire t).2) rl

/-- The list of results of a sequence of `acquire()` calls at the given
clock times. -/
def rlResults (rl : RateLimiter) (ts : List ℚ) : List Bool :=
  match ts with
  | [] => []
  | t :: ts => (rl.acquire t).1 :: rlResults (rl.acquire t).2 ts

theorem rlRun_nil (rl : RateLimiter) : rlRun rl [] = rl := rfl

theorem rlRun_cons (rl : RateLimiter) (t : ℚ) (ts : List ℚ) :
    rlRun rl (t :: ts) = rlRun (rl.acquire t).2 ts := rfl

theorem rlRun_append (rl : RateLimiter) (ts₁ ts₂ : List ℚ) :
    rlRun rl (ts₁ ++ ts₂) = rlRun (rlRun rl ts₁) ts₂ := by
  induction ts₁ generalizing rl with
  | nil => rfl
  | cons t ts ih => simp [rlRun_cons, ih]

namespace RateLimiter

theorem acquire_max_per_second (rl : RateLimiter) (now : ℚ) :
    ((rl.acquire now).2).max_per_second = rl.max_per_second := by
  unfold acquire; dsimp only; split_ifs <;> rfl

theorem acquire_max_per_day (rl : RateLimiter) (now : ℚ) :
    ((rl.acquire now).2).max_per_day = rl.max_per_day := by
  unfold acquire; dsimp only; split_ifs <;> rfl

/-- After any `acquire` the bucket holds at most `max_per_second` tokens:
the refill clamps at the capacity and consumption only decreases it. -/
theorem acquire_tokens_le (rl : RateLimiter) (now : ℚ) :
    ((rl.acquire now).2).tokens ≤ rl.max_per_second := by
  unfold acquire; dsimp only; split_ifs <;>
    simp only [] <;>
    linarith [min_le_left rl.max_per_second
      (rl.tokens + (now - rl.last_refill) * rl.max_per_second)]

/-- The method `acquire` never pushes `daily_requests` past `max_per_day`: the counter
is only incremented after the `daily_requests >= max_per_day` check fails. -/
theorem acquire_daily_le (rl : RateLimiter) (now : ℚ)
    (h : rl.daily_requests ≤ rl.max_per_day) :
    ((rl.acquire now).2).daily_requests ≤ rl.max_per_day := by
  unfold acquire; dsimp only; split_ifs <;> simp_all <;> omega

theorem acquire_last_refill (rl : RateLimiter) (now : ℚ) :
    ((rl.acquire now).2).last_refill = now := by
  unfold acquire; dsimp only; split_ifs <;> rfl

/-- Tokens stay nonnegative across `acquire`: the refill adds a nonnegative
amount (clock monotone, nonnegative rate) and consumption only happens when
at least one token is available. -/
theorem acquire_tokens_nonneg (rl : RateLimiter) (now : ℚ)
    (hcap : 0 ≤ rl.max_per_second) (ht : 0 ≤ rl.tokens)
    (hlr : rl.last_refill ≤ now) :
    0 ≤ ((rl.acquire now).2).tokens := by
  have hmul : 0 ≤ (now - rl.last_refill) * rl.max_per_second :=
    mul_nonneg (by linarith) hcap
  unfold acquire; dsimp only
  split_ifs <;> simp_all [le_min_iff] <;> linarith

/-- Token accounting for one `acquire` step: the new token count plus the
unit consumed (if the call succeeded) is at most the old count plus what the
elapsed time refilled. -/
theorem acquire_token_account (rl : RateLimiter) (now : ℚ) :
    ((rl.acquire now).2).tokens + (if (rl.acquire now).1 then (1 : ℚ) else 0)
      ≤ rl.tokens + (now - rl.last_refill) * rl.max_per_second := by
  have hmin := min_le_right rl.max_per_second
    (rl.tokens + (now - rl.last_refill) * rl.max_per_second)
  unfold acquire; dsimp only
  split_ifs <;> simp_all

end RateLimiter

/-- Burst-bound invariant: along a nondecreasing sequence of call times that
stays below `t0 + 1`, the number of successes plus the remaining tokens
never exceeds what the bucket started with plus what time refilled. -/
theorem rlResults_count_bound (N t0 : ℚ) (hN : 0 ≤ N) :
    ∀ (ts : List ℚ) (rl : RateLimiter) (c : ℕ),
    rl.max_per_second = N →
    0 ≤ rl.tokens →
    (c : ℚ) + rl.tokens ≤ N + (rl.last_refill - t0) * N →
    List.Chain' (· ≤ ·) (rl.last_refill :: ts) →
    (∀ t ∈ rl.last_refill :: ts, t ≤ t0 + 1) →
    ((c : ℚ) + (rlResults rl ts).count true) ≤ 2 * N := by
  intro ts
  induction ts with
  | nil =>
      intro rl c hm ht hacc _ hmem
      have hlr : rl.last_refill ≤ t0 + 1 := hmem _ (by simp)
      have : (rl.last_refill - t0) * N ≤ 1 * N :=
        mul_le_mul_of_nonneg_right (by linarith) hN
      simp only [rlResults, List.count_nil, Nat.cast_zero, add_zero]
      linarith
  | cons t ts ih =>
      intro rl c hm ht hacc hchain hmem
      have hle : rl.last_refill ≤ t := (List.chain'_cons.1 hchain).1
      have hchain' : List.Chain' (· ≤ ·) (t :: ts) := (List.chain'_cons.1 hchain).2
      have hmem' : ∀ s ∈ t :: ts, s ≤ t0 + 1 := fun s hs => hmem s (by simp_all)
      have hlr' := RateLimiter.acquire_last_refill rl t
      have hcnt : ((rlResults rl (t :: ts)).count true : ℚ)
          = ((rlResults (rl.acquire t).2 ts).count true : ℚ)
            + (if (rl.acquire t).1 then (1 : ℚ) else 0) := by
        simp only [rlResults, List.count_cons]
        split_ifs <;> simp_all
      have haccount := RateLimiter.acquire_token_account rl t
      have hnn := RateLimiter.acquire_tokens_nonneg rl t (hm ▸ hN) ht hle
      rw [hcnt]
      have happ := ih ((rl.acquire t).2) (c + if (rl.acquire t).1 then 1 else 0)
        (by rw [RateLimiter.acquire_max_per_second]; exact hm)
        hnn
        (by
          rw [hlr']
          push_cast
          split_ifs at haccount ⊢ <;> rw [hm] at haccount <;> nlinarith)
        (by rw [hlr']; exact hchain')
        (by rw [hlr']; exact hmem')
      push_cast at happ ⊢
      split_ifs at happ ⊢ <;> linarith

theorem rlRun_max_per_second (ts : List ℚ) : ∀ rl : RateLimiter,
    (rlRun rl ts).max_per_second = rl.max_per_second := by
  induction ts with
  | nil => intro rl; rfl
  | cons t ts ih =>
      intro rl
      rw [rlRun_cons, ih, RateLimiter.acquire_max_per_second]

theorem rlRun_max_per_day (ts : List ℚ) : ∀ rl : RateLimiter,
    (rlRun rl ts).max_per_day = rl.max_per_day := by
  induction ts with
  | nil => intro rl; rfl
  | cons t ts ih =>
      intro rl
      rw [rlRun_cons, ih, RateLimiter.acquire_max_per_day]

theorem rlRun_invariant_aux (ts : List ℚ) : ∀ rl : RateLimiter,
    rl.tokens ≤ rl.max_per_second → rl.daily_requests ≤ rl.max_per_day →
    (rlRun rl ts).tokens ≤ rl.max_per_second ∧
      (rlRun rl ts).daily_requests ≤ rl.max_per_day := by
  induction ts with
  | nil => intro rl h1 h2; exact ⟨h1, h2⟩
  | cons t ts ih =>
      intro rl h1 h2
      rw [rlRun_cons]
      have hs := RateLimiter.acquire_max_per_second rl t
      have hd := RateLimiter.acquire_max_per_day rl t
      have := ih ((rl.acquire t).2)
        (by rw [hs]; exact RateLimiter.acquire_tokens_le rl t)
        (by rw [hd]; exact RateLimiter.acquire_daily_le rl t h2)
      rw [hs, hd] at this
      exact this

/-- C7: in every `RateLimiter` state reachable by any sequence of
`acquire()` calls (at arbitrary clock times) from construction,
`tokens ≤ max_per_second` and `daily_requests ≤ max_per_day` hold. -/
theorem rateLimiter_invariant (max_per_second : ℚ) (max_per_day : ℕ)
    (t0 : ℚ) (ts : List ℚ) :
    (rlRun (RateLimiter.init max_per_second max_per_day t0) ts).tokens
        ≤ max_per_second ∧
      (rlRun (RateLimiter.init max_per_second max_per_day t0) ts).daily_requests
        ≤ max_per_day :=
  rlRun_invariant_aux ts (RateLimiter.init max_per_second max_per_day t0)
    le_rfl (Nat.zero_le _)

/-- The first `k` call times of a sequence spaced `1/N` seconds apart,
starting at time 0. -/
def callTimes (N : ℕ) (k : ℕ) : List ℚ :=
  (List.range k).map (fun (j : ℕ) => (j : ℚ) / N)

theorem callTimes_succ (N k : ℕ) :
    callTimes N (k + 1) = callTimes N k ++ [(k : ℚ) / N] := by
  simp [callTimes, List.range_succ]

/-- Shape of the limiter state after `k ≥ 1` admitted calls spaced `1/N`
seconds apart from construction at time 0: a bucket one token short of
full, refilled at the `(k-1)`-st call, with the daily counter recording the
calls admitted since the last daily rollover. -/
def spacedInv (N mpd : ℕ) (k : ℕ) (rl : RateLimiter) : Prop :=
  rl.max_per_second = (N : ℚ) ∧ rl.max_per_day = mpd ∧
  rl.tokens = (N : ℚ) - 1 ∧ rl.last_refill = ((k - 1 : ℕ) : ℚ) / N ∧
  ∃ q : ℕ, rl.daily_reset = 86400 * ((q : ℚ) + 1) ∧
    k = 86400 * N * q + rl.daily_requests ∧
    1 ≤ rl.daily_requests ∧ rl.daily_requests ≤ 86400 * N

/-- One step of the `1/N`-spaced schedule: from a state of shape
`spacedInv … k …` the `k`-th call (at time `k/N`) is admitted and the
state keeps the shape, provided the daily budget covers a full day of
`1/N`-spaced calls (`max_per_day ≥ 86400 · N`). -/
theorem acquire_spaced_step (N mpd : ℕ) (hN : 1 ≤ N) (hmpd : 86400 * N ≤ mpd)
    (k : ℕ) (hk : 1 ≤ k) (rl : RateLimiter) (h : spacedInv N mpd k rl) :
    (rl.acquire ((k : ℚ) / N)).1 = true ∧
      spacedInv N mpd (k + 1) (rl.acquire ((k : ℚ) / N)).2 := by
  obtain ⟨mps, mpday, tok, lr, d, dr⟩ := rl
  obtain ⟨hm, hday, htok, hlr, q, hdr, hkeq, hd1, hdD⟩ := h
  dsimp only at hm hday htok hlr hdr hkeq hd1 hdD
  subst hm hday htok hlr hdr
  have hN0 : (0 : ℚ) < N := by exact_mod_cast hN
  have hNne : (N : ℚ) ≠ 0 := ne_of_gt hN0
  have hcast : ((k - 1 : ℕ) : ℚ) = (k : ℚ) - 1 := by
    push_cast [hk]; ring
  have hrefill : min ((N : ℚ))
      (((N : ℚ) - 1) + ((k : ℚ) / N - ((k - 1 : ℕ) : ℚ) / N) * N) = (N : ℚ) := by
    rw [hcast, div_sub_div_same, sub_sub_cancel, one_div_mul_cancel hNne]
    norm_num
  have hN1 : (1 : ℚ) ≤ (N : ℚ) := by exact_mod_cast hN
  have htoklim : ¬ ((N : ℚ) < 1) := not_lt.2 hN1
  unfold RateLimiter.acquire
  dsimp only
  rw [hrefill]
  rcases eq_or_lt_of_le hdD with hcase | hcase
  · -- daily counter full: this call lands exactly on the daily reset
    have hkD : k = 86400 * N * (q + 1) := by rw [hkeq, hcase]; ring
    have hkQ : (k : ℚ) / N = 86400 * ((q : ℚ) + 1) := by
      rw [div_eq_iff hNne]; push_cast [hkD]; ring
    have hreset : 86400 * ((q : ℚ) + 1) ≤ (k : ℚ) / N := le_of_eq hkQ.symm
    rw [if_pos hreset]
    have hmpd0 : ¬ (mpday ≤ 0) := by omega
    rw [if_neg hmpd0, if_neg htoklim]
    refine ⟨rfl, rfl, rfl, rfl, ?_, q + 1, ?_, ?_, ?_, ?_⟩
    · dsimp only; norm_num
    · dsimp only; rw [hkQ]; push_cast; ring
    · dsimp only; rw [hkD]
    · dsimp only; omega
    · dsimp only; omega
  · -- daily window still open: no reset, counter strictly below the cap
    have hnoreset : ¬ (86400 * ((q : ℚ) + 1) ≤ (k : ℚ) / N) := by
      rw [not_le, div_lt_iff₀ hN0]
      calc (k : ℚ) = 86400 * N * q + d := by exact_mod_cast hkeq
        _ < 86400 * ((q : ℚ) + 1) * N := by
            have : (d : ℚ) < 86400 * N := by exact_mod_cast hcase
            ring_nf; linarith [this]
    rw [if_neg hnoreset]
    have hdpass : ¬ (mpday ≤ d) := by omega
    rw [if_neg hdpass, if_neg htoklim]
    refine ⟨rfl, rfl, rfl, rfl, ?_, q, rfl, ?_, ?_, ?_⟩
    · dsimp only; norm_num
    · dsimp only; omega
    · dsimp only; omega
    · dsimp only; omega

/-- The first call of the `1/N`-spaced schedule, at time 0, on a freshly
constructed limiter: admitted, and the state takes the `spacedInv` shape. -/
theorem acquire_init_spaced (N mpd : ℕ) (hN : 1 ≤ N) (hmpd : 86400 * N ≤ mpd) :
    ((RateLimiter.init (N : ℚ) mpd 0).acquire 0).1 = true ∧
      spacedInv N mpd 1 ((RateLimiter.init (N : ℚ) mpd 0).acquire 0).2 := by
  have hN1 : (1 : ℚ) ≤ (N : ℚ) := by exact_mod_cast hN
  have hmpd0 : ¬ (mpd ≤ 0) := by omega
  have htoklim : ¬ ((N : ℚ) < 1) := not_lt.2 hN1
  unfold RateLimiter.init RateLimiter.acquire
  dsimp only
  have hmin : min ((N : ℚ)) ((N : ℚ) + ((0 : ℚ) - 0) * N) = (N : ℚ) := by norm_num
  rw [hmin]
  rw [if_neg (show ¬ ((0 : ℚ) + 86400 ≤ 0) by norm_num)]
  rw [if_neg hmpd0, if_neg htoklim]
  refine ⟨rfl, rfl, rfl, rfl, ?_, 0, ?_, ?_, ?_, ?_⟩ <;> dsimp only
  · norm_num
  · norm_num
  · norm_num
  · norm_num
  · omega

/-- Every call of the `1/N`-spaced schedule is admitted, indefinitely,
provided the daily budget covers a full day of such calls. -/
theorem spaced_all_admitted (N mpd : ℕ) (hN : 1 ≤ N) (hmpd : 86400 * N ≤ mpd) :
    ∀ k : ℕ,
      ((rlRun (RateLimiter.init (N : ℚ) mpd 0) (callTimes N k)).acquire
          ((k : ℚ) / N)).1 = true := by
  have key : ∀ k : ℕ, spacedInv N mpd (k + 1)
      (rlRun (RateLimiter.init (N : ℚ) mpd 0) (callTimes N (k + 1))) := by
    intro k
    induction k with
    | zero =>
        have h := (acquire_init_spaced N mpd hN hmpd).2
        have h1 : callTimes N 1 = [(0 : ℚ)] := by
          unfold callTimes
          norm_num [List.range_succ]
        rw [h1, rlRun_cons, rlRun_nil]
        exact h
    | succ k ih =>
        rw [callTimes_succ, rlRun_append, rlRun_cons, rlRun_nil]
        exact (acquire_spaced_step N mpd hN hmpd (k + 1) (by omega) _ ih).2
  intro k
  cases k with
  | zero =>
      have h := (acquire_init_spaced N mpd hN hmpd).1
      have h0 : ((0 : ℕ) : ℚ) / N = 0 := by norm_num
      simpa [callTimes, rlRun_nil, h0] using h
  | succ k =>
      exact (acquire_spaced_step N mpd hN hmpd (k + 1) (by omega) _ (key k)).1

/-- C1 counterexample: with `max_per_second = N = 2`, the three calls at
times 0, 0 and 1/2 — all inside the one-second interval [0, 1] — are all
admitted: 3 > N calls succeed within one second, because the bucket starts
full (a burst of N) and refills another token during the interval. -/
theorem rateLimiter_one_second_cex :
    (rlResults (RateLimiter.init 2 100 0) [0, 0, 1/2]).count true = 3 ∧ 2 < 3 := by
  refine ⟨?_, by norm_num⟩
  norm_num [rlResults, RateLimiter.acquire, RateLimiter.init, min_def,
    List.count_cons]

/-- C1 amended: (1) for every sequence of `acquire()` calls at nondecreasing
times within the one-second interval `[t0, t0 + 1]` starting at construction
time `t0`, at most `2·N` calls return `True` (the initial burst of up to `N`
stored tokens plus at most `N` tokens refilled during the interval; the
originally claimed bound `N` is exceeded, see the counterexample); and
(2) calls spaced exactly `1/N` seconds apart are all admitted indefinitely,
provided `N ≥ 1` and the daily budget covers a full day of such calls
(`max_per_day ≥ 86400·N`). -/
theorem rateLimiter_admission_amended :
    (∀ (N : ℚ) (mpd : ℕ) (t0 : ℚ) (ts : List ℚ), 0 ≤ N →
        List.Chain' (· ≤ ·) (t0 :: ts) → (∀ t ∈ ts, t ≤ t0 + 1) →
        ((rlResults (RateLimiter.init N mpd t0) ts).count true : ℚ) ≤ 2 * N) ∧
    (∀ N mpd : ℕ, 1 ≤ N → 86400 * N ≤ mpd → ∀ k : ℕ,
        ((rlRun (RateLimiter.init (N : ℚ) mpd 0) (callTimes N k)).acquire
            ((k : ℚ) / N)).1 = true) := by
  constructor
  · intro N mpd t0 ts hN hchain hmem
    have h := rlResults_count_bound N t0 hN ts (RateLimiter.init N mpd t0) 0
      rfl hN (by simp [RateLimiter.init]) hchain
      (by
        intro t ht
        rcases List.mem_cons.1 ht with h | h
        · rw [h]; show t0 ≤ t0 + 1; linarith
        · exact hmem t h)
    simpa using h
  · exact spaced_all_admitted

theorem rateLimiter_admission_amended_witness :
    ((rlResults (RateLimiter.init 2 100 0) [0, 0, 1/2]).count true : ℚ) ≤ 2 * 2 ∧
      ((rlRun (RateLimiter.init ((1 : ℕ) : ℚ) 86400 0) (callTimes 1 0)).acquire
          (((0 : ℕ) : ℚ) / (1 : ℕ))).1 = true :=
  ⟨rateLimiter_admission_amended.1 2 100 0 [0, 0, 1/2] (by norm_num)
      (by norm_num [List.chain'_cons])
      (by intro t ht; fin_cases ht <;> norm_num),
    rateLimiter_admission_amended.2 1 86400 (by norm_num) (by norm_num) 0⟩

/-- C2 counterexample: a rejected `acquire()` is not free of side effects on
`tokens`.  Construct with `max_per_second = 2`, take two tokens at time 0,
then call at time 1/4: the call is rejected (only 1/2 token after refill),
yet `tokens` went from 0 to 1/2 — the refill step runs before the checks
and mutates `tokens` even when the call returns `False`. -/
theorem rateLimiter_reject_side_effect_cex :
    ((rlRun (RateLimiter.init 2 10 0) [0, 0]).acquire (1/4)).1 = false ∧
      (rlRun (RateLimiter.init 2 10 0) [0, 0]).tokens = 0 ∧
      ((rlRun (RateLimiter.init 2 10 0) [0, 0]).acquire (1/4)).2.tokens = 1/2 := by
  norm_num [rlRun, RateLimiter.acquire, RateLimiter.init, min_def]

/-- C2 amended: a rejected `acquire()` consumes nothing — it never decreases
`tokens` (the only mutation on rejection is the refill, which can only add
tokens when the clock does not run backwards and the bucket is within its
capacity) and never increments `daily_requests` (which is either left
unchanged or reset to 0 by the daily-window rollover). -/
theorem rateLimiter_reject_no_consume (rl : RateLimiter) (now : ℚ)
    (hcap : 0 ≤ rl.max_per_second) (htok : rl.tokens ≤ rl.max_per_second)
    (hlr : rl.last_refill ≤ now)
    (hf : (rl.acquire now).1 = false) :
    rl.tokens ≤ ((rl.acquire now).2).tokens ∧
      (((rl.acquire now).2).daily_requests = rl.daily_requests ∨
        ((rl.acquire now).2).daily_requests = 0) := by
  have hmul : 0 ≤ (now - rl.last_refill) * rl.max_per_second :=
    mul_nonneg (by linarith) hcap
  have hmin : rl.tokens ≤
      min rl.max_per_second (rl.tokens + (now - rl.last_refill) * rl.max_per_second) :=
    le_min htok (by linarith)
  unfold RateLimiter.acquire at hf ⊢
  dsimp only at hf ⊢
  split_ifs at hf ⊢ <;> simp_all

theorem rateLimiter_reject_no_consume_witness :
    (RateLimiter.init (1/2) 10 0).tokens ≤
        (((RateLimiter.init (1/2) 10 0).acquire 0).2).tokens ∧
      ((((RateLimiter.init (1/2) 10 0).acquire 0).2).daily_requests =
          (RateLimiter.init (1/2) 10 0).daily_requests ∨
        (((RateLimiter.init (1/2) 10 0).acquire 0).2).daily_requests = 0) :=
  rateLimiter_reject_no_consume (RateLimiter.init (1/2) 10 0) 0
    (by norm_num [RateLimiter.init])
    (by norm_num [RateLimiter.init])
    (by norm_num [RateLimiter.init])
    (by norm_num [RateLimiter.acquire, RateLimiter.init, min_def])

/-! ## CircuitBreaker (core/circuit_breaker.py)

`CircuitState` is the three-valued enum; the breaker state carries the
configuration (`failure_threshold`, `timeout`) together with the mutable
fields.  `last_failure_time` is `None` until the first failure. -/

inductive CircuitState where
  | closed
  | «open»
  | half_open
  deriving Repr, DecidableEq

structure CircuitBreaker where
  failure_threshold : ℕ
  timeout : ℚ
  state : CircuitState
  failure_count : ℕ
  last_failure_time : Option ℚ
  deriving Repr, DecidableEq

namespace CircuitBreaker

/-- Embeds `CircuitBreaker.__init__(failure_threshold, timeout)`. -/
def init (failure_threshold : ℕ) (timeout : ℚ) : CircuitBreaker :=
  { failure_threshold := failure_threshold
    timeout := timeout
    state := .closed
    failure_count := 0
    last_failure_time := none }

/-- Embeds `CircuitBreaker.allow_request()` executed at clock time `now`: closed
and half-open circuits admit; an open circuit admits (and moves to
half-open) once `timeout` seconds have elapsed since the last failure. -/
def allow_request (cb : CircuitBreaker) (now : ℚ) : Bool × CircuitBreaker :=
  match cb.state with
  | .closed => (true, cb)
  | .open =>
      match cb.last_failure_time with
      | some lf =>
          if cb.timeout ≤ now - lf then (true, { cb with state := .half_open })
          else (false, cb)
      | none => (false, cb)
  | .half_open => (true, cb)

/-- Embeds `CircuitBreaker.record_success()`: a no-op except in half-open, where it
closes the circuit and resets the failure counter. -/
def record_success (cb : CircuitBreaker) : CircuitBreaker :=
  if cb.state = .half_open then
    { cb with state := .closed, failure_count := 0 }
  else cb

/-- Embeds `CircuitBreaker.record_failure()` executed at clock time `now`: bumps
the counter and the failure timestamp, reopens from half-open, and opens
from closed once the counter reaches the threshold. -/
def record_failure (cb : CircuitBreaker) (now : ℚ) : CircuitBreaker :=
  let cb := { cb with failure_count := cb.failure_count + 1,
                      last_failure_time := some now }
  let cb := if cb.state = .half_open then { cb with state := .open } else cb
  if cb.failure_threshold ≤ cb.failure_count ∧ cb.state = .closed then
    { cb with state := .open }
  else cb

end CircuitBreaker

/-- One observable call on the breaker: `allow_request`, `record_success`
or `record_failure`, the clock reads attached to the calls that read it. -/
inductive CBEvent where
  | allow (t : ℚ)
  | success
  | failure (t : ℚ)
  deriving Repr, DecidableEq

def cbStep (cb : CircuitBreaker) : CBEvent → CircuitBreaker
  | .allow t => (cb.allow_request t).2
  | .success => cb.record_success
  | .failure t => cb.record_failure t

/-- Breaker state after a sequence of calls from a given state. -/
def cbRun (cb : CircuitBreaker) (es : List CBEvent) : CircuitBreaker :=
  es.foldl cbStep cb

/-- A step `cbStep` never changes the configured `failure_threshold`. -/
theorem cbStep_failure_threshold (cb : CircuitBreaker) (e : CBEvent) :
    (cbStep cb e).failure_threshold = cb.failure_threshold := by
  obtain ⟨thr, tmo, st, fc, lft⟩ := cb
  cases e with
  | allow t =>
      cases st with
      | closed => rfl
      | «open» =>
          cases lft with
          | none => rfl
          | some lf =>
              simp only [cbStep, CircuitBreaker.allow_request]
              split_ifs <;> rfl
      | half_open => rfl
  | success =>
      cases st <;> simp [cbStep, CircuitBreaker.record_success]
  | failure t =>
      cases st <;> simp only [cbStep, CircuitBreaker.record_failure] <;>
        split_ifs <;> rfl

/-- Single-step entering characterization: how a step can change the state
into `open` or into `closed`. -/
theorem cbStep_entry (cb : CircuitBreaker) (e : CBEvent) :
    ((cb.state ≠ .open → (cbStep cb e).state = .open →
      (∃ t, e = .failure t) ∧
        ((cb.state = .closed ∧ cb.failure_threshold ≤ (cbStep cb e).failure_count) ∨
          cb.state = .half_open)) ∧
     (cb.state ≠ .closed → (cbStep cb e).state = .closed →
      e = .success ∧ cb.state = .half_open ∧ (cbStep cb e).failure_count = 0)) := by
  obtain ⟨thr, tmo, st, fc, lft⟩ := cb
  constructor
  · intro h1 h2
    cases e with
    | allow t =>
        exfalso
        cases st with
        | closed => simp [cbStep, CircuitBreaker.allow_request] at h2
        | «open» => exact h1 rfl
        | half_open => simp [cbStep, CircuitBreaker.allow_request] at h2
    | success =>
        exfalso
        cases st with
        | closed => simp [cbStep, CircuitBreaker.record_success] at h2
        | «open» => exact h1 rfl
        | half_open => simp [cbStep, CircuitBreaker.record_success] at h2
    | failure t =>
        refine ⟨⟨t, rfl⟩, ?_⟩
        cases st with
        | closed =>
            simp [cbStep, CircuitBreaker.record_failure] at h2 ⊢
            split_ifs at h2 ⊢ with hc
            · exact hc
        | «open» => exact absurd rfl h1
        | half_open => exact Or.inr rfl
  · intro h1 h2
    cases e with
    | allow t =>
        exfalso
        cases st with
        | closed => exact h1 rfl
        | «open» =>
            cases lft with
            | none => simp [cbStep, CircuitBreaker.allow_request] at h2
            | some lf =>
                simp only [cbStep, CircuitBreaker.allow_request] at h2
                split_ifs at h2
        | half_open => simp [cbStep, CircuitBreaker.allow_request] at h2
    | success =>
        cases st with
        | closed => exact absurd rfl h1
        | «open» =>
            exfalso
            simp [cbStep, CircuitBreaker.record_success] at h2
        | half_open =>
            exact ⟨rfl, rfl, by simp [cbStep, CircuitBreaker.record_success]⟩
    | failure t =>
        exfalso
        cases st with
        | closed => exact h1 rfl
        | «open» => simp [cbStep, CircuitBreaker.record_failure] at h2
        | half_open => simp [cbStep, CircuitBreaker.record_failure] at h2

/-- C3: in every breaker state reachable from the initial closed state by
any sequence of calls, the state can only have *become* `Open` through a
`record_failure()` that either brought `failure_count` to at least
`failure_threshold` while `Closed` or occurred while `HalfOpen`; and it can
only have *become* `Closed` (other than initially) through a
`record_success()` while `HalfOpen`, which also set `failure_count` to 0.
(Transitions are state changes: calls that leave `state` untouched, such as
a `record_failure()` while already `Open`, are not transitions.) -/
theorem circuitBreaker_state_entry (thr : ℕ) (tmo : ℚ) (es : List CBEvent)
    (e : CBEvent) :
    (((cbRun (CircuitBreaker.init thr tmo) es).state ≠ .open →
      (cbStep (cbRun (CircuitBreaker.init thr tmo) es) e).state = .open →
      (∃ t, e = .failure t) ∧
        (((cbRun (CircuitBreaker.init thr tmo) es).state = .closed ∧
          thr ≤ (cbStep (cbRun (CircuitBreaker.init thr tmo) es) e).failure_count) ∨
          (cbRun (CircuitBreaker.init thr tmo) es).state = .half_open)) ∧
     ((cbRun (CircuitBreaker.init thr tmo) es).state ≠ .closed →
      (cbStep (cbRun (CircuitBreaker.init thr tmo) es) e).state = .closed →
      e = .success ∧ (cbRun (CircuitBreaker.init thr tmo) es).state = .half_open ∧
        (cbStep (cbRun (CircuitBreaker.init thr tmo) es) e).failure_count = 0)) := by
  have hthr : (cbRun (CircuitBreaker.init thr tmo) es).failure_threshold = thr := by
    induction es using List.reverseRecOn with
    | nil => rfl
    | append_singleton es e ih =>
        have happ : cbRun (CircuitBreaker.init thr tmo) (es ++ [e])
            = cbStep (cbRun (CircuitBreaker.init thr tmo) es) e := by
          simp [cbRun]
        rw [happ, cbStep_failure_threshold]
        exact ih
  have h := cbStep_entry (cbRun (CircuitBreaker.init thr tmo) es) e
  rw [hthr] at h
  exact h

theorem circuitBreaker_state_entry_witness :
    (∃ t, CBEvent.failure (0 : ℚ) = CBEvent.failure t) ∧
      (((cbRun (CircuitBreaker.init 1 10) []).state = .closed ∧
        1 ≤ (cbStep (cbRun (CircuitBreaker.init 1 10) [])
              (CBEvent.failure 0)).failure_count) ∨
        (cbRun (CircuitBreaker.init 1 10) []).state = .half_open) :=
  (circuitBreaker_state_entry 1 10 [] (CBEvent.failure 0)).1
    (by decide) (by decide)

/-- C10: `record_success()` while the circuit is `Open` or `Closed` is a
strict no-op — the entire state (in particular `state`, `failure_count` and
`last_failure_time`) is unchanged; only a success while `HalfOpen` closes
the circuit. -/
theorem circuitBreaker_success_noop (cb : CircuitBreaker)
    (h : cb.state = .open ∨ cb.state = .closed) :
    cb.record_success = cb := by
  unfold CircuitBreaker.record_success
  rcases h with h | h <;> rw [h] <;> simp

theorem circuitBreaker_success_noop_witness :
    (CircuitBreaker.init 5 60).record_success = CircuitBreaker.init 5 60 :=
  circuitBreaker_success_noop (CircuitBreaker.init 5 60) (Or.inr rfl)

/-- The breaker state after five consecutive `record_failure()` calls on a
freshly constructed `CircuitBreaker(5, tmo)`. -/
def cbFail5 (tmo t1 t2 t3 t4 t5 : ℚ) : CircuitBreaker :=
  (((((CircuitBreaker.init 5 tmo).record_failure t1).record_failure
    t2).record_failure t3).record_failure t4).record_failure t5

/-- C4: with `failure_threshold = 5`, five consecutive `record_failure()`
calls from the initial closed state open the circuit; any `allow_request()`
strictly before `timeout` seconds have elapsed since the fifth failure
returns `False` (and changes nothing); the first `allow_request()` at or
after the timeout returns `True` and moves the circuit to half-open; from
there `record_success()` closes the circuit with `failure_count = 0`, while
`record_failure()` instead reopens it. -/
theorem circuitBreaker_threshold_scenario (tmo : ℚ)
    (t1 t2 t3 t4 t5 ta tb tc : ℚ)
    (hta : ta - t5 < tmo) (htb : tmo ≤ tb - t5) :
    (cbFail5 tmo t1 t2 t3 t4 t5).state = .open ∧
      ((cbFail5 tmo t1 t2 t3 t4 t5).allow_request ta).1 = false ∧
      ((cbFail5 tmo t1 t2 t3 t4 t5).allow_request ta).2
        = cbFail5 tmo t1 t2 t3 t4 t5 ∧
      ((cbFail5 tmo t1 t2 t3 t4 t5).allow_request tb).1 = true ∧
      ((cbFail5 tmo t1 t2 t3 t4 t5).allow_request tb).2.state = .half_open ∧
      (((cbFail5 tmo t1 t2 t3 t4 t5).allow_request tb).2.record_success).state
        = .closed ∧
      (((cbFail5 tmo t1 t2 t3 t4 t5).allow_request
          tb).2.record_success).failure_count = 0 ∧
      ((((cbFail5 tmo t1 t2 t3 t4 t5).allow_request tb).2).record_failure
        tc).state = .open := by
  unfold cbFail5
  have s1 : (CircuitBreaker.init 5 tmo).record_failure t1
      = ⟨5, tmo, .closed, 1, some t1⟩ := by
    simp [CircuitBreaker.record_failure, CircuitBreaker.init]
  have s2 : (⟨5, tmo, .closed, 1, some t1⟩ : CircuitBreaker).record_failure t2
      = ⟨5, tmo, .closed, 2, some t2⟩ := by
    simp [CircuitBreaker.record_failure]
  have s3 : (⟨5, tmo, .closed, 2, some t2⟩ : CircuitBreaker).record_failure t3
      = ⟨5, tmo, .closed, 3, some t3⟩ := by
    simp [CircuitBreaker.record_failure]
  have s4 : (⟨5, tmo, .closed, 3, some t3⟩ : CircuitBreaker).record_failure t4
      = ⟨5, tmo, .closed, 4, some t4⟩ := by
    simp [CircuitBreaker.record_failure]
  have s5 : (⟨5, tmo, .closed, 4, some t4⟩ : CircuitBreaker).record_failure t5
      = ⟨5, tmo, .«open», 5, some t5⟩ := by
    simp [CircuitBreaker.record_failure]
  have ha : (⟨5, tmo, .«open», 5, some t5⟩ : CircuitBreaker).allow_request ta
      = (false, ⟨5, tmo, .«open», 5, some t5⟩) := by
    unfold CircuitBreaker.allow_request
    dsimp only
    rw [if_neg (not_le.2 hta)]
  have hb : (⟨5, tmo, .«open», 5, some t5⟩ : CircuitBreaker).allow_request tb
      = (true, ⟨5, tmo, .half_open, 5, some t5⟩) := by
    unfold CircuitBreaker.allow_request
    dsimp only
    rw [if_pos htb]
  have hsucc : (⟨5, tmo, .half_open, 5, some t5⟩ : CircuitBreaker).record_success
      = ⟨5, tmo, .closed, 0, some t5⟩ := by
    simp [CircuitBreaker.record_success]
  have hfail : (⟨5, tmo, .half_open, 5, some t5⟩ : CircuitBreaker).record_failure tc
      = ⟨5, tmo, .«open», 6, some tc⟩ := by
    simp [CircuitBreaker.record_failure]
  rw [s1, s2, s3, s4, s5, ha, hb, hsucc, hfail]
  exact ⟨rfl, rfl, rfl, rfl, rfl, rfl, rfl, rfl⟩

theorem circuitBreaker_threshold_scenario_witness :
    (cbFail5 10 0 0 0 0 0).state = .open ∧
      ((cbFail5 10 0 0 0 0 0).allow_request 5).1 = false ∧
      ((cbFail5 10 0 0 0 0 0).allow_request 5).2 = cbFail5 10 0 0 0 0 0 ∧
      ((cbFail5 10 0 0 0 0 0).allow_request 10).1 = true ∧
      ((cbFail5 10 0 0 0 0 0).allow_request 10).2.state = .half_open ∧
      (((cbFail5 10 0 0 0 0 0).allow_request 10).2.record_success).state
        = .closed ∧
      (((cbFail5 10 0 0 0 0 0).allow_request 10).2.record_success).failure_count
        = 0 ∧
      ((((cbFail5 10 0 0 0 0 0).allow_request 10).2).record_failure 11).state
        = .open :=
  circuitBreaker_threshold_scenario 10 0 0 0 0 0 5 10 11
    (by norm_num) (by norm_num)

/-! ## CacheManager (core/cache_manager.py)

Values are JSON-serializable Python values (`None`, booleans, ints,
strings); `PyVal.none` plays the role of Python's `None`, which is also
what `get` returns on a miss.  The L1 tier (`cachetools.TTLCache`) is an
association list of entries with their expiry time; the source bounds it at
1000 entries with LRU eviction, which never evicts the entry just written
and is not observable in the per-call properties proved here, so the bound
is not modelled.  The L2 tier (Redis) is a key/value store of serialized
strings behind a client that may be absent (`redis_client = None`) or
unreachable (`failing`), in which case every operation on it raises.  The
MD5 hex digest of `_hash_key` is kept abstract as a function parameter
`md5`; every property below holds for an arbitrary digest function. -/

inductive PyVal where
  | none
  | bool (b : Bool)
  | int (n : ℤ)
  | str (s : String)
  deriving Repr, DecidableEq

/-- Embeds `json.dumps` on the modelled values. -/
def dumps : PyVal → String
  | .none => "null"
  | .bool true => "true"
  | .bool false => "false"
  | .int n => toString n
  | .str s => "\"" ++ s ++ "\""

/-- Embeds `json.loads` on the modelled values: `Option.none` is a JSON decode
error (raises in Python). -/
def loads (s : String) : Option PyVal :=
  if s = "null" then some .none
  else if s = "true" then some (.bool true)
  else if s = "false" then some (.bool false)
  else if 2 ≤ s.length ∧ s.startsWith "\"" ∧ s.endsWith "\"" then
    some (.str ((s.drop 1).dropRight 1))
  else (s.toInt?).map .int

/-- Embeds `settings.cache_ttl_search` (config/settings.py), the fixed TTL of the
L1 tier and the default TTL for L2 writes. -/
def cacheTtlSearch : ℕ := 3600

/-- The Redis client handle: the shared external store (serialized values
by key) plus whether the connection currently fails (every operation then
raises). -/
structure RedisClient where
  failing : Bool
  store : List (String × String)
  deriving Repr, DecidableEq

namespace RedisClient

/-- Embeds `redis.get(key)`: the serialized value, `Option.none` for a missing
key; `.error` models a raised connection error. -/
def get (r : RedisClient) (ck : String) : Except String (Option String) :=
  if r.failing then .error "ConnectionError"
  else .ok ((r.store.find? (fun e => e.1 == ck)).map (·.2))

/-- Embeds `redis.setex(key, ttl, value)`.  The per-entry Redis expiry is not
modelled: no property here observes an L2 entry after its TTL. -/
def setex (r : RedisClient) (ck : String) (ttl : ℕ) (val : String) :
    Except String RedisClient :=
  if r.failing then .error "ConnectionError"
  else .ok { r with store := (ck, val) :: r.store.filter (fun e => !(e.1 == ck)) }

/-- Embeds `redis.delete(key)`. -/
def del (r : RedisClient) (ck : String) : Except String RedisClient :=
  if r.failing then .error "ConnectionError"
  else .ok { r with store := r.store.filter (fun e => !(e.1 == ck)) }

/-- Embeds `redis.keys(pre + "*")`: all stored keys with the given prefix. -/
def keys (r : RedisClient) (pre : String) : Except String (List String) :=
  if r.failing then .error "ConnectionError"
  else .ok ((r.store.filter (fun e => pre.isPrefixOf e.1)).map (·.1))

/-- Embeds `redis.delete(*keys)`: bulk delete. -/
def delMany (r : RedisClient) (ks : List String) : Except String RedisClient :=
  if r.failing then .error "ConnectionError"
  else .ok { r with store := r.store.filter (fun e => !(ks.contains e.1)) }

end RedisClient

/-- One L1 entry: composite key, cached value, expiry time. -/
abbrev MemCache := List (String × PyVal × ℚ)

/-- Embeds `cache_key in memory_cache` / `memory_cache[cache_key]` on the
`TTLCache`: present iff stored and not expired. -/
def memLookup (m : MemCache) (now : ℚ) (ck : String) : Option PyVal :=
  match m.find? (fun e => e.1 == ck) with
  | some e => if now < e.2.2 then some e.2.1 else none
  | none => none

/-- Embeds `memory_cache[cache_key] = value` on the `TTLCache`: unconditional
insertion, expiring `cache_ttl_search` seconds later (the L1 TTL is
tier-configured, not the per-call `ttl` argument). -/
def memInsert (m : MemCache) (now : ℚ) (ck : String) (v : PyVal) : MemCache :=
  (ck, v, now + (cacheTtlSearch : ℚ)) :: m.filter (fun e => !(e.1 == ck))

structure CacheManager where
  memory_cache : MemCache
  redis_client : Option RedisClient
  deriving Repr, DecidableEq

namespace CacheManager

/-- Embeds `CacheManager.__init__()`: empty L1; the L2 handle as configured. -/
def init (redis_client : Option RedisClient) : CacheManager :=
  { memory_cache := [], redis_client := redis_client }

/-- Embeds `CacheManager._generate_key(key, namespace)` with
`_hash_key = md5(key).hexdigest()` abstract. -/
def generate_key (md5 : String → String) (key ns : String) : String :=
  ns ++ ":" ++ md5 key

/-- Embeds `CacheManager.get(key, namespace)` at clock time `now`: L1 first, then
L2 (errors swallowed: a raise inside the `try` falls through to
`return None`); an L2 hit is deserialized and populated into L1.  Returns
the Python return value (`PyVal.none` on a miss) and the new state. -/
def get (md5 : String → String) (cm : CacheManager) (now : ℚ)
    (key : String) (ns : String) : PyVal × CacheManager :=
  let cache_key := generate_key md5 key ns
  match memLookup cm.memory_cache now cache_key with
  | some v => (v, cm)
  | none =>
    match cm.redis_client with
    | none => (.none, cm)
    | some r =>
      match r.get cache_key with
      | .error _ => (.none, cm)
      | .ok none => (.none, cm)
      | .ok (some s) =>
          if s ≠ "" then
            match loads s with
            | some v =>
                (v, { cm with memory_cache := memInsert cm.memory_cache now cache_key v })
            | none => (.none, cm)
          else (.none, cm)

/-- Embeds `CacheManager.set(key, value, namespace, ttl)` at clock time `now`:
always writes L1; attempts the L2 `setex` (errors swallowed).  Python's
`ttl = ttl or settings.cache_ttl_search` treats both `None` and `0` as
unset. -/
def set (md5 : String → String) (cm : CacheManager) (now : ℚ)
    (key : String) (value : PyVal) (ns : String) (ttl : Option ℕ) :
    CacheManager :=
  let cache_key := generate_key md5 key ns
  let t := match ttl with
    | some n => if n = 0 then cacheTtlSearch else n
    | none => cacheTtlSearch
  let m := memInsert cm.memory_cache now cache_key value
  match cm.redis_client with
  | none => { cm with memory_cache := m }
  | some r =>
    match r.setex cache_key t (dumps value) with
    | .error _ => { cm with memory_cache := m }
    | .ok r2 => { memory_cache := m, redis_client := some r2 }

/-- Embeds `CacheManager.delete(key, namespace)` at clock time `now`: drops the
L1 entry if live, attempts the L2 delete (errors swallowed). -/
def delete (md5 : String → String) (cm : CacheManager) (now : ℚ)
    (key : String) (ns : String) : CacheManager :=
  let cache_key := generate_key md5 key ns
  let m := if (memLookup cm.memory_cache now cache_key).isSome then
      cm.memory_cache.filter (fun e => !(e.1 == cache_key))
    else cm.memory_cache
  match cm.redis_client with
  | none => { cm with memory_cache := m }
  | some r =>
    match r.del cache_key with
    | .error _ => { cm with memory_cache := m }
    | .ok r2 => { memory_cache := m, redis_client := some r2 }

/-- Embeds `CacheManager.clear_namespace(namespace)`: scan-and-delete on the L2
tier only (`if keys:` guards the bulk delete); the L1 tier is untouched;
errors swallowed. -/
def clear_namespace (cm : CacheManager) (ns : String) : CacheManager :=
  match cm.redis_client with
  | none => cm
  | some r =>
    match r.keys (ns ++ ":") with
    | .error _ => cm
    | .ok ks =>
        if ks ≠ [] then
          match r.delMany ks with
          | .error _ => cm
          | .ok r2 => { cm with redis_client := some r2 }
        else cm

end CacheManager

/-- A fresh L1 insertion is immediately visible (its TTL is in the
future). -/
theorem memLookup_memInsert (m : MemCache) (now : ℚ) (ck : String) (v : PyVal) :
    memLookup (memInsert m now ck v) now ck = some v := by
  unfold memLookup memInsert
  simp [cacheTtlSearch]

/-- Whatever the L2 tier does, `set` leaves the L1 tier holding the fresh
entry. -/
theorem set_memory_cache (md5 : String → String) (cm : CacheManager)
    (now : ℚ) (key : String) (value : PyVal) (ns : String) (ttl : Option ℕ) :
    (CacheManager.set md5 cm now key value ns ttl).memory_cache
      = memInsert cm.memory_cache now (CacheManager.generate_key md5 key ns)
          value := by
  unfold CacheManager.set
  dsimp only
  split
  · rfl
  · split <;> rfl

/-- A `set` then `get` of the same key and namespace, at the same time,
returns the value just written (the L1 hit short-circuits the L2 tier). -/
theorem get_after_set (md5 : String → String) (cm : CacheManager) (now : ℚ)
    (key : String) (value : PyVal) (ns : String) (ttl : Option ℕ) :
    (CacheManager.get md5 (CacheManager.set md5 cm now key value ns ttl)
        now key ns).1 = value := by
  unfold CacheManager.get
  dsimp only
  rw [set_memory_cache, memLookup_memInsert]

/-- A `get` on a fresh manager whose L2 store holds nothing returns
`PyVal.none`, whether the L2 tier is absent, empty or unreachable. -/
theorem get_unset (md5 : String → String) (rc : Option RedisClient)
    (now : ℚ) (key ns : String) (h : ∀ r ∈ rc, r.store = []) :
    (CacheManager.get md5 (CacheManager.init rc) now key ns).1 = PyVal.none := by
  cases rc with
  | none => rfl
  | some r =>
      obtain ⟨fl, st⟩ := r
      have hst : st = [] := h ⟨fl, st⟩ rfl
      subst hst
      cases fl <;> rfl

/-- C5: for every key, value and namespace, `set(k, v, ns)` immediately
followed by `get(k, ns)` returns `v` (the fresh L1 entry is within its
TTL), from any cache state and for any L2 behaviour; and `get` on a key
that was never set (a fresh manager over an empty, absent or unreachable
L2 store) returns the absent value `None`. -/
theorem cacheManager_roundtrip :
    (∀ (md5 : String → String) (cm : CacheManager) (now : ℚ)
        (key : String) (value : PyVal) (ns : String) (ttl : Option ℕ),
      (CacheManager.get md5 (CacheManager.set md5 cm now key value ns ttl)
          now key ns).1 = value) ∧
    (∀ (md5 : String → String) (rc : Option RedisClient) (now : ℚ)
        (key ns : String), (∀ r ∈ rc, r.store = []) →
      (CacheManager.get md5 (CacheManager.init rc) now key ns).1
        = PyVal.none) :=
  ⟨get_after_set, get_unset⟩

theorem cacheManager_roundtrip_witness :
    (CacheManager.get (fun s => s)
        (CacheManager.set (fun s => s) (CacheManager.init none) 0 "k"
          (PyVal.int 5) "products" none) 0 "k" "products").1 = PyVal.int 5 ∧
      (CacheManager.get (fun s => s) (CacheManager.init none) 0 "k"
          "products").1 = PyVal.none :=
  ⟨cacheManager_roundtrip.1 (fun s => s) (CacheManager.init none) 0 "k"
      (PyVal.int 5) "products" none,
    cacheManager_roundtrip.2 (fun s => s) none 0 "k" "products"
      (by intro r hr; cases hr)⟩

/-- C9: caching `None` is indistinguishable from absence at the public
interface: after `set(k, None, ns)`, `get(k, ns)` returns `None` — exactly
what `get` returns for a key that was never set (a fresh manager over an
empty, absent or unreachable L2 store). -/
theorem cacheManager_none_indistinguishable (md5 : String → String)
    (cm : CacheManager) (now now2 : ℚ) (key ns : String) (ttl : Option ℕ)
    (rc : Option RedisClient) (h : ∀ r ∈ rc, r.store = []) :
    (CacheManager.get md5 (CacheManager.set md5 cm now key PyVal.none ns ttl)
        now key ns).1
      = (CacheManager.get md5 (CacheManager.init rc) now2 key ns).1 ∧
    (CacheManager.get md5 (CacheManager.set md5 cm now key PyVal.none ns ttl)
        now key ns).1 = PyVal.none := by
  have h1 := get_after_set md5 cm now key PyVal.none ns ttl
  have h2 := get_unset md5 rc now2 key ns h
  exact ⟨h1.trans h2.symm, h1⟩

theorem cacheManager_none_indistinguishable_witness :
    (CacheManager.get (fun s => s)
        (CacheManager.set (fun s => s) (CacheManager.init none) 0 "k"
          PyVal.none "products" none) 0 "k" "products").1
      = (CacheManager.get (fun s => s) (CacheManager.init none) 0 "k"
          "products").1 ∧
    (CacheManager.get (fun s => s)
        (CacheManager.set (fun s => s) (CacheManager.init none) 0 "k"
          PyVal.none "products" none) 0 "k" "products").1 = PyVal.none :=
  cacheManager_none_indistinguishable (fun s => s) (CacheManager.init none)
    0 0 "k" "products" none none (by intro r hr; cases hr)

/-- C6: when every L2 (Redis) operation raises, `get`, `set` and `delete`
still complete and behave exactly as they would with no L2 tier configured:
`get` returns the L1 result and leaves the state untouched, `set` and
`delete` perform their L1 mutation, and the unreachable L2 handle and its
store are left unchanged. -/
theorem cacheManager_redis_failure_fallback (md5 : String → String)
    (cm : CacheManager) (r : RedisClient) (now : ℚ) (key : String)
    (value : PyVal) (ns : String) (ttl : Option ℕ)
    (hr : cm.redis_client = some r) (hf : r.failing = true) :
    (CacheManager.get md5 cm now key ns).1
        = (CacheManager.get md5 { cm with redis_client := none } now key ns).1 ∧
      (CacheManager.get md5 cm now key ns).2 = cm ∧
      (CacheManager.set md5 cm now key value ns ttl).memory_cache
        = (CacheManager.set md5 { cm with redis_client := none } now key value
            ns ttl).memory_cache ∧
      (CacheManager.set md5 cm now key value ns ttl).redis_client = some r ∧
      (CacheManager.delete md5 cm now key ns).memory_cache
        = (CacheManager.delete md5 { cm with redis_client := none } now key
            ns).memory_cache ∧
      (CacheManager.delete md5 cm now key ns).redis_client = some r := by
  obtain ⟨mem, rc⟩ := cm
  dsimp only at hr
  subst hr
  refine ⟨?_, ?_, ?_, ?_, ?_, ?_⟩ <;>
    simp [CacheManager.get, CacheManager.set, CacheManager.delete,
      RedisClient.get, RedisClient.setex, RedisClient.del, hf] <;>
    cases memLookup mem now (CacheManager.generate_key md5 key ns) <;> rfl

theorem cacheManager_redis_failure_fallback_witness :
    (CacheManager.get (fun s => s)
        (CacheManager.init (some ⟨true, [("products:k", "null")]⟩)) 0 "k"
        "products").1
      = (CacheManager.get (fun s => s)
          { CacheManager.init (some ⟨true, [("products:k", "null")]⟩) with
              redis_client := none } 0 "k" "products").1 ∧
    (CacheManager.get (fun s => s)
        (CacheManager.init (some ⟨true, [("products:k", "null")]⟩)) 0 "k"
        "products").2
      = CacheManager.init (some ⟨true, [("products:k", "null")]⟩) ∧
    (CacheManager.set (fun s => s)
        (CacheManager.init (some ⟨true, [("products:k", "null")]⟩)) 0 "k"
        (PyVal.int 5) "products" none).memory_cache
      = (CacheManager.set (fun s => s)
          { CacheManager.init (some ⟨true, [("products:k", "null")]⟩) with
              redis_client := none } 0 "k" (PyVal.int 5) "products"
          none).memory_cache ∧
    (CacheManager.set (fun s => s)
        (CacheManager.init (some ⟨true, [("products:k", "null")]⟩)) 0 "k"
        (PyVal.int 5) "products" none).redis_client
      = some ⟨true, [("products:k", "null")]⟩ ∧
    (CacheManager.delete (fun s => s)
        (CacheManager.init (some ⟨true, [("products:k", "null")]⟩)) 0 "k"
        "products").memory_cache
      = (CacheManager.delete (fun s => s)
          { CacheManager.init (some ⟨true, [("products:k", "null")]⟩) with
              redis_client := none } 0 "k" "products").memory_cache ∧
    (CacheManager.delete (fun s => s)
        (CacheManager.init (some ⟨true, [("products:k", "null")]⟩)) 0 "k"
        "products").redis_client = some ⟨true, [("products:k", "null")]⟩ :=
  cacheManager_redis_failure_fallback (fun s => s)
    (CacheManager.init (some ⟨true, [("products:k", "null")]⟩))
    ⟨true, [("products:k", "null")]⟩ 0 "k" (PyVal.int 5) "products" none
    rfl rfl

/-- On a live L2 store, one `clear_namespace` pass removes exactly the
entries whose key carries the namespace prefix, and afterwards no such
entry remains. -/
theorem clear_namespace_live (mem : MemCache) (st : List (String × String))
    (ns : String) :
    CacheManager.clear_namespace ⟨mem, some ⟨false, st⟩⟩ ns
      = ⟨mem, some ⟨false,
          st.filter (fun e => !((ns ++ ":").isPrefixOf e.1))⟩⟩ := by
  have hkeys : (⟨false, st⟩ : RedisClient).keys (ns ++ ":")
      = .ok ((st.filter (fun e => (ns ++ ":").isPrefixOf e.1)).map
          (fun e => e.1)) := rfl
  have hdel : ∀ ks, (⟨false, st⟩ : RedisClient).delMany ks
      = .ok ⟨false, st.filter (fun e => !(ks.contains e.1))⟩ := fun ks => rfl
  unfold CacheManager.clear_namespace
  dsimp only
  rw [hkeys]
  dsimp only
  by_cases hks : (st.filter (fun e => (ns ++ ":").isPrefixOf e.1)).map
      (fun e => e.1) = []
  · rw [if_neg (by simp [hks])]
    have hfilter : st.filter (fun e => !((ns ++ ":").isPrefixOf e.1)) = st := by
      rw [List.filter_eq_self]
      intro e he
      have h0 : ¬ ((ns ++ ":").isPrefixOf e.1 = true) :=
        List.filter_eq_nil_iff.1 (List.map_eq_nil_iff.1 hks) e he
      simp only [Bool.not_eq_true] at h0
      simp [h0]
    rw [hfilter]
  · rw [if_pos hks, hdel]
    have hfc : st.filter (fun e =>
          !((st.filter (fun e => (ns ++ ":").isPrefixOf e.1)).map
              (fun e => e.1)).contains e.1)
        = st.filter (fun e => !((ns ++ ":").isPrefixOf e.1)) := by
      apply List.filter_congr
      intro e he
      congr 1
      rcases hp : (ns ++ ":").isPrefixOf e.1 with _ | _
      · have hnot : e.1 ∉ (st.filter (fun e => (ns ++ ":").isPrefixOf e.1)).map
            (fun e => e.1) := by
          intro hmem
          rcases List.mem_map.1 hmem with ⟨e2, he2, heq⟩
          have hpre := (List.mem_filter.1 he2).2
          rw [heq, hp] at hpre
          cases hpre
        simp [hnot]
      · have hmem : e.1 ∈ (st.filter (fun e => (ns ++ ":").isPrefixOf e.1)).map
            (fun e => e.1) :=
          List.mem_map.2 ⟨e, List.mem_filter.2 ⟨he, hp⟩, rfl⟩
        simp [hmem]
    rw [hfc]

/-- C8: `clear_namespace(ns)` is idempotent — a second call has no further
observable effect (the scan finds no remaining key with the namespace
prefix) — and on a namespace that holds no keys it completes as the
identity (no error; in this embedding every operation is total, mirroring
the source, which swallows all distributed-tier errors). -/
theorem cacheManager_clear_namespace_idem (cm : CacheManager) (ns : String) :
    CacheManager.clear_namespace (CacheManager.clear_namespace cm ns) ns
        = CacheManager.clear_namespace cm ns ∧
      ((∀ r, cm.redis_client = some r →
          ∀ e ∈ r.store, ¬ ((ns ++ ":").isPrefixOf e.1 = true)) →
        CacheManager.clear_namespace cm ns = cm) := by
  obtain ⟨mem, rc⟩ := cm
  cases rc with
  | none => exact ⟨rfl, fun _ => rfl⟩
  | some r =>
      obtain ⟨fl, st⟩ := r
      cases fl with
      | true => exact ⟨rfl, fun _ => rfl⟩
      | false =>
          constructor
          · rw [clear_namespace_live, clear_namespace_live, List.filter_filter]
            simp only [Bool.and_self]
          · intro h
            rw [clear_namespace_live]
            have hfix : st.filter (fun e => !((ns ++ ":").isPrefixOf e.1))
                = st := by
              rw [List.filter_eq_self]
              intro e he
              have h0 := h ⟨false, st⟩ rfl e he
              simp only [Bool.not_eq_true] at h0 ⊢
              simp [h0]
            rw [hfix]

theorem cacheManager_clear_namespace_idem_witness :
    CacheManager.clear_namespace
        (CacheManager.clear_namespace
          ⟨[], some ⟨false, [("products:a", "null")]⟩⟩ "products") "products"
      = CacheManager.clear_namespace
          ⟨[], some ⟨false, [("products:a", "null")]⟩⟩ "products" ∧
    CacheManager.clear_namespace
        ⟨[], some ⟨false, [("search:b", "null")]⟩⟩ "products"
      = ⟨[], some ⟨false, [("search:b", "null")]⟩⟩ :=
  ⟨(cacheManager_clear_namespace_idem
      ⟨[], some ⟨false, [("products:a", "null")]⟩⟩ "products").1,
    (cacheManager_clear_namespace_idem
      ⟨[], some ⟨false, [("search:b", "null")]⟩⟩ "products").2
      (by
        intro r hr e he
        cases hr
        simp at he
        rw [he]
        decide)⟩

end AmazonMcp
